import Mathlib

/-!
A verification development for `searcher.py`: a keyword searcher over text
files with four execution strategies (`SingleThreadSearcher`,
`MultiThreadSearcher`, `MultiProcessSearcher`, `MultiProcessSearcher2`)
sharing the abstract base `SearcherBase`.

The Python code is shallowly embedded as follows.

* A file system `FS` is an association list from file names to a
  `FileData`: either readable lines, or an entry that raises a
  non-`FileNotFoundError` exception on `open` (e.g. `PermissionError`).
  A name absent from the list raises `FileNotFoundError`.
* `line.lower()` is embedded as mapping `Char.toLower` over the
  characters (they agree on ASCII input).
* Python's `word in line` substring test is embedded as `<:+:` on the
  character lists.
* Python's tuple comparison on `(word, file_name, line_number)` is the
  lexicographic order `matchLe`, with strings compared by the
  code-point lexicographic order on their character lists.
* `list.sort()` is a stable ascending sort; since `matchLe` is a total,
  transitive, antisymmetric order, the sorted output is the unique
  sorted permutation of the input, so it is embedded as
  `List.insertionSort matchLe`.
* Concurrency (thread/process interleavings of appends to the shared
  result list, arrival order on the multiprocessing queues) is embedded
  by quantifying over arbitrary permutations of the canonical
  concatenation of the per-worker outputs, and the dynamic file queue of
  `MultiProcessSearcher2` by an explicit small-step scheduler.
-/

/-- Python string comparison: lexicographic on code points, embedded as the
order on the underlying character lists. -/
def strLt (a b : String) : Prop := a.data < b.data

instance strLt.decidable (a b : String) : Decidable (strLt a b) :=
  inferInstanceAs (Decidable (a.data < b.data))

/-- One match record, as pushed by `SearcherBase.search_words`
(line 49 of `searcher.py`): `(word, file_name, line_number)`. -/
abbrev SearchMatch := String × String × Nat

/-- Python `<=` on `(word, file_name, line_number)` tuples: lexicographic by
keyword, then file name, then line number.  `self.results.sort()` sorts
ascending with respect to this order. -/
def matchLe (a b : SearchMatch) : Prop :=
  strLt a.1 b.1 ∨
    (a.1 = b.1 ∧ (strLt a.2.1 b.2.1 ∨ (a.2.1 = b.2.1 ∧ a.2.2 ≤ b.2.2)))

instance matchLe.decidable : DecidableRel matchLe := fun a b => by
  unfold matchLe; exact inferInstance

theorem strLt.trans {a b c : String} (h₁ : strLt a b) (h₂ : strLt b c) :
    strLt a c := lt_trans h₁ h₂

theorem strLt.asymm {a b : String} (h : strLt a b) : ¬ strLt b a := lt_asymm h

theorem strLt.irrefl (a : String) : ¬ strLt a a := lt_irrefl a.data

theorem strLt.trichotomy (a b : String) : strLt a b ∨ a = b ∨ strLt b a := by
  rcases lt_trichotomy a.data b.data with h | h | h
  · exact Or.inl h
  · exact Or.inr (Or.inl (String.ext h))
  · exact Or.inr (Or.inr h)

instance matchLe.isTotal : IsTotal SearchMatch matchLe := by
  constructor
  intro a b
  rcases strLt.trichotomy a.1 b.1 with h | h | h
  · exact Or.inl (Or.inl h)
  · rcases strLt.trichotomy a.2.1 b.2.1 with h2 | h2 | h2
    · exact Or.inl (Or.inr ⟨h, Or.inl h2⟩)
    · rcases Nat.le_total a.2.2 b.2.2 with h3 | h3
      · exact Or.inl (Or.inr ⟨h, Or.inr ⟨h2, h3⟩⟩)
      · exact Or.inr (Or.inr ⟨h.symm, Or.inr ⟨h2.symm, h3⟩⟩)
    · exact Or.inr (Or.inr ⟨h.symm, Or.inl h2⟩)
  · exact Or.inr (Or.inl h)

instance matchLe.isTrans : IsTrans SearchMatch matchLe := by
  constructor
  rintro a b c (h | ⟨he, h⟩) (h' | ⟨he', h'⟩)
  · exact Or.inl (strLt.trans h h')
  · exact Or.inl (he' ▸ h)
  · exact Or.inl (he ▸ h')
  · refine Or.inr ⟨he.trans he', ?_⟩
    rcases h with h | ⟨he2, h⟩ <;> rcases h' with h' | ⟨he2', h'⟩
    · exact Or.inl (strLt.trans h h')
    · exact Or.inl (he2' ▸ h)
    · exact Or.inl (he2 ▸ h')
    · exact Or.inr ⟨he2.trans he2', Nat.le_trans h h'⟩

instance matchLe.isAntisymm : IsAntisymm SearchMatch matchLe := by
  constructor
  rintro ⟨a1, a2, a3⟩ ⟨b1, b2, b3⟩ (h | ⟨he, h⟩) (h' | ⟨he', h'⟩)
  · exact absurd h' (strLt.asymm h)
  · exact absurd h (he' ▸ strLt.irrefl b1)
  · exact absurd h' (he ▸ strLt.irrefl a1)
  · cases he
    rcases h with h | ⟨he2, h⟩ <;> rcases h' with h' | ⟨he2', h'⟩
    · exact absurd h' (strLt.asymm h)
    · exact absurd h (he2' ▸ strLt.irrefl b2)
    · exact absurd h' (he2 ▸ strLt.irrefl a2)
    · cases he2
      exact congrArg (Prod.mk a1) (congrArg (Prod.mk a2) (Nat.le_antisymm h h'))

/-- `self.results.sort()`: Python's stable ascending in-place sort of the
match tuples.  Embedded as insertion sort; by antisymmetry of `matchLe` the
result is the unique sorted permutation, so the choice of sorting algorithm
is irrelevant. -/
def pySort (l : List SearchMatch) : List SearchMatch := List.insertionSort matchLe l

theorem pySort_sorted (l : List SearchMatch) : List.Sorted matchLe (pySort l) :=
  List.sorted_insertionSort matchLe l

theorem pySort_perm (l : List SearchMatch) : (pySort l).Perm l :=
  List.perm_insertionSort matchLe l

/-- Sorting is invariant under permutation of the input: with `matchLe`
antisymmetric there is a unique sorted permutation. -/
theorem pySort_congr {l₁ l₂ : List SearchMatch} (h : l₁.Perm l₂) :
    pySort l₁ = pySort l₂ :=
  List.eq_of_perm_of_sorted ((pySort_perm l₁).trans (h.trans (pySort_perm l₂).symm))
    (pySort_sorted l₁) (pySort_sorted l₂)

/-- What `open(file_name, "r")` can find: readable text (a list of lines), or
a file whose `open`/read raises an exception other than
`FileNotFoundError` (e.g. `PermissionError`). -/
inductive FileData where
  | lines (ls : List String)
  | ioError (msg : String)
deriving DecidableEq

/-- The ambient file system: an association list from file names to
`FileData`.  A name with no entry raises `FileNotFoundError` on `open`. -/
abbrev FS := List (String × FileData)

def FS.read (fs : FS) (name : String) : Option FileData :=
  (fs.find? (fun p => p.1 == name)).map (fun p => p.2)

/-- `line.lower()`: Python's per-character lowercasing (embedding is exact on
ASCII text). -/
def pyLower (s : String) : String := ⟨s.data.map Char.toLower⟩

/-- Python's `word in line` substring containment test. -/
def pyIn (word line : String) : Bool := decide (word.data <:+: line.data)

/-- The matches `SearcherBase.search_words` pushes for one line `line` with
index `i` of file `file_name`: one tuple per matching keyword, in keyword
order (`for word in key_words: if word in line: ...`, lines 47-49). -/
def lineMatches (file_name : String) (key_words : List String) (i : Nat)
    (line : String) : List SearchMatch :=
  key_words.filterMap (fun word =>
    if pyIn word (pyLower line) then some (word, file_name, i) else none)

/-- `SearcherBase.search_words` (lines 43-51): opens `file_name`; on
`FileNotFoundError` logs and pushes nothing (`.ok []`); any other exception
propagates (`.error`); otherwise pushes, for each 0-indexed line in order,
one match per keyword contained in the lowercased line. -/
def search_words (fs : FS) (file_name : String) (key_words : List String) :
    Except String (List SearchMatch) :=
  match FS.read fs file_name with
  | none => .ok []
  | some (.ioError msg) => .error msg
  | some (.lines ls) =>
      .ok (ls.enum.flatMap (fun p => lineMatches file_name key_words p.1 p.2))

/-- The log lines emitted by `search_words` (line 51:
`logging.error(f"File {file_name} not found")`). -/
def search_words_logs (fs : FS) (file_name : String) : List String :=
  match FS.read fs file_name with
  | none => ["File " ++ file_name ++ " not found"]
  | some _ => []

/-- The matches a call to `search_words` contributes to the results: none
when it raised. -/
def okMatches (e : Except String (List SearchMatch)) : List SearchMatch :=
  match e with
  | .ok ms => ms
  | .error _ => []

/-- `SearcherBase.worker` (lines 53-71): runs `search_words` on each file in
order inside one `try`; the first exception escaping `search_words` is
logged and stops the worker, so later files contribute nothing. -/
def SearcherBase.worker (fs : FS) (files : List String)
    (key_words : List String) : List SearchMatch :=
  match files with
  | [] => []
  | f :: rest =>
      match search_words fs f key_words with
      | .ok ms => ms ++ SearcherBase.worker fs rest key_words
      | .error _ => []

/-- `SearcherBase.search` (lines 73-84) after `start_workers` has appended
the raw matches `raw` to the instance's accumulated `self.results`: the new
`self.results` is the sorted concatenation.  (Timing is not modeled.) -/
def SearcherBase.search (results raw : List SearchMatch) : List SearchMatch :=
  pySort (results ++ raw)

/-- `SingleThreadSearcher`: `start_workers` runs one worker on all files
(line 139); a fresh instance starts from empty `self.results`. -/
def SingleThreadSearcher.search (fs : FS) (files key_words : List String) :
    List SearchMatch :=
  SearcherBase.search [] (SearcherBase.worker fs files key_words)

/-- `files_per_worker = (len(self.files) + n_workers - 1) // n_workers`
(line 173), i.e. `ceil(F / N)`, for `n_workers ≥ 1`. -/
def files_per_worker (F n : Nat) : Nat := (F + n - 1) / n

/-- The file slice handed to worker `i`:
`self.files[i * files_per_worker : (i + 1) * files_per_worker]`
(lines 178-180).  Python slicing clips to the list's bounds. -/
def staticSlice (files : List String) (n i : Nat) : List String :=
  ((files.drop (i * files_per_worker files.length n)).take
    (files_per_worker files.length n))

/-- `MultiThreadSearcher.start_workers` (lines 159-186): the canonical
concatenation, by worker index, of the matches the `n_workers` thread
workers append to the locked shared `self.results`.  The actual shared list
is an arbitrary interleaving of the per-worker streams, i.e. a permutation
of this list. -/
def MultiThreadSearcher.raw (fs : FS) (files key_words : List String)
    (n : Nat) : List SearchMatch :=
  (List.range n).flatMap
    (fun i => SearcherBase.worker fs (staticSlice files n i) key_words)

/-- `MultiProcessSearcher.start_workers` (lines 211-243): the same static
partitioning as `MultiThreadSearcher`; each process worker puts its matches
on a queue which the parent drains into `self.results`, so the collected
list is again a permutation of this canonical concatenation. -/
def MultiProcessSearcher.raw (fs : FS) (files key_words : List String)
    (n : Nat) : List SearchMatch :=
  (List.range n).flatMap
    (fun i => SearcherBase.worker fs (staticSlice files n i) key_words)

/-- State of the dynamic file distribution of `MultiProcessSearcher2`:
the shared `files_queue` still unclaimed (FIFO), the files each of the `n`
workers has popped so far (in pop order), and which workers are still
running (a worker stops on `queue.Empty` or on any other exception,
lines 279-285). -/
structure QState where
  queue : List String
  popped : List (List String)
  alive : List Bool
deriving DecidableEq

/-- Before the workers start, all files are put on the queue in order
(lines 295-296) and the `n` workers are alive with nothing popped. -/
def qinit (files : List String) (n : Nat) : QState :=
  { queue := files
    popped := List.replicate n []
    alive := List.replicate n true }

/-- One scheduler step of dynamic worker `w`: if the worker has already
terminated, nothing happens; if the queue is empty, `files.get(block=False)`
raises `queue.Empty` and the worker terminates; otherwise the worker
atomically pops the head file and runs `search_words` on it — if that
raises an exception other than `FileNotFoundError`, the generic
`except Exception` handler stops the worker (lines 279-285). -/
def qstep (fs : FS) (key_words : List String) (st : QState) (w : Nat) : QState :=
  if st.alive.getD w false then
    match st.queue with
    | [] => { st with alive := st.alive.set w false }
    | f :: rest =>
        let popped := st.popped.modify (fun l => l ++ [f]) w
        match search_words fs f key_words with
        | .ok _ => { st with queue := rest, popped := popped }
        | .error _ =>
            { st with queue := rest, popped := popped,
                      alive := st.alive.set w false }
  else st

/-- Run the dynamic workers under an arbitrary schedule (list of worker
indices, covering every interleaving of atomic queue pops). -/
def qrun (fs : FS) (key_words : List String) (sched : List Nat) (st : QState) :
    QState :=
  match sched with
  | [] => st
  | w :: ws => qrun fs key_words ws (qstep fs key_words st w)

/-- `MultiProcessSearcher2.start_workers` (lines 287-307): the canonical
concatenation, by worker index, of the matches produced from the files each
dynamic worker popped under schedule `sched`.  As for the other concurrent
strategies, the drained `self.results` is a permutation of this list. -/
def MultiProcessSearcher2.raw (fs : FS) (files key_words : List String)
    (n : Nat) (sched : List Nat) : List SearchMatch :=
  ((qrun fs key_words sched (qinit files n)).popped.map
    (fun wfiles => wfiles.flatMap
      (fun f => okMatches (search_words fs f key_words)))).flatten

/-- Python `range(n)` for an arbitrary integer `n`: empty when `n ≤ 0`. -/
def pyRange (n : Int) : List Int := (List.range n.toNat).map Int.ofNat

/-- Normalize a Python slice bound for a list of length `len`: negative
indices count from the end, and bounds are clipped to `[0, len]`. -/
def pyBound (len : Nat) (i : Int) : Nat :=
  if i < 0 then (i + len).toNat else min i.toNat len

/-- Python `l[a:b]` for arbitrary integer bounds. -/
def pySliceZ (l : List String) (a b : Int) : List String :=
  (l.take (pyBound l.length b)).drop (pyBound l.length a)

/-- `MultiThreadSearcher.start_workers` for an arbitrary integer
`n_workers`, with Python's exception semantics made explicit:
`(len(files) + n_workers - 1) // n_workers` raises `ZeroDivisionError` when
`n_workers == 0` (Python `//` is floor division, `Int.fdiv`), and
`range(n_workers)` spawns no workers when `n_workers < 0`. -/
def MultiThreadSearcher.start_workersZ (fs : FS) (files key_words : List String)
    (n : Int) : Except String (List SearchMatch) :=
  if n = 0 then .error "ZeroDivisionError"
  else
    let k : Int := Int.fdiv (files.length + n - 1) n
    .ok ((pyRange n).flatMap
      (fun i => SearcherBase.worker fs (pySliceZ files (i * k) ((i + 1) * k))
        key_words))

/-- `MultiThreadSearcher.search` for an arbitrary integer `n_workers`: an
exception from `start_workers` propagates out of `search` (line 81 is not
guarded); otherwise the collected raw matches are sorted. -/
def MultiThreadSearcher.searchZ (fs : FS) (files key_words : List String)
    (n : Int) : Except String (List SearchMatch) :=
  (MultiThreadSearcher.start_workersZ fs files key_words n).map
    (fun raw => SearcherBase.search [] raw)

/-- `SingleThreadSearcher.search` for an arbitrary integer `n_workers`:
`SingleThreadSearcher.start_workers` ignores `n_workers` entirely
(line 139), so no value of `n_workers` can be rejected or raise. -/
def SingleThreadSearcher.searchZ (fs : FS) (files key_words : List String)
    (_ : Int) : Except String (List SearchMatch) :=
  .ok (SearcherBase.search [] (SearcherBase.worker fs files key_words))

deriving instance DecidableEq for Except

/-- No listed file raises an exception other than `FileNotFoundError`
(readable and missing files are both fine). -/
def noFault (fs : FS) (key_words files : List String) : Prop :=
  ∀ f ∈ files, (search_words fs f key_words).isOk = true

instance noFault.decidable (fs : FS) (key_words files : List String) :
    Decidable (noFault fs key_words files) :=
  List.decidableBAll _ files

theorem worker_eq_flatMap {fs : FS} {key_words files : List String}
    (h : noFault fs key_words files) :
    SearcherBase.worker fs files key_words =
      files.flatMap (fun f => okMatches (search_words fs f key_words)) := by
  induction files with
  | nil => rfl
  | cons f rest ih =>
      have hf := h f (List.mem_cons_self f rest)
      have hrest : noFault fs key_words rest :=
        fun g hg => h g (List.mem_cons_of_mem f hg)
      rw [SearcherBase.worker, List.flatMap_cons]
      cases he : search_words fs f key_words with
      | ok ms => rw [ih hrest]; rfl
      | error msg =>
          rw [he] at hf
          exact absurd hf (by simp [Except.isOk, Except.toBool])

theorem worker_sublist (fs : FS) (key_words files : List String) :
    (SearcherBase.worker fs files key_words).Sublist
      (files.flatMap (fun f => okMatches (search_words fs f key_words))) := by
  induction files with
  | nil => exact List.Sublist.refl _
  | cons f rest ih =>
      rw [SearcherBase.worker, List.flatMap_cons]
      cases he : search_words fs f key_words with
      | ok ms => exact List.Sublist.append_left ih (okMatches (.ok ms))
      | error msg => exact List.nil_sublist _

theorem staticSlice_sublist (files : List String) (n i : Nat) :
    (staticSlice files n i).Sublist files :=
  (List.take_sublist _ _).trans (List.drop_sublist _ _)

theorem flatMap_staticSlice (files : List String) (n : Nat) (m : Nat) :
    (List.range m).flatMap (staticSlice files n) =
      files.take (m * files_per_worker files.length n) := by
  induction m with
  | zero => simp
  | succ m ih =>
      rw [List.range_succ, List.flatMap_append, ih, List.flatMap_cons,
        List.flatMap_nil, List.append_nil, Nat.succ_mul, List.take_add]
      rfl

theorem le_mul_files_per_worker (F n : Nat) (hn : 1 ≤ n) :
    F ≤ n * files_per_worker F n := by
  unfold files_per_worker
  have h1 := Nat.div_add_mod (F + n - 1) n
  have h2 : (F + n - 1) % n < n := Nat.mod_lt _ hn
  have h3 : (F + n - 1) % n ≤ n - 1 := by omega
  revert h1
  generalize n * ((F + n - 1) / n) = t
  intro h1
  omega

/-- Static partitioning is complete: the slices concatenate, in order, to
the whole file list. -/
theorem flatMap_staticSlice_eq (files : List String) (n : Nat) (hn : 1 ≤ n) :
    (List.range n).flatMap (staticSlice files n) = files := by
  rw [flatMap_staticSlice]
  exact List.take_of_length_le
    (Nat.le_trans (le_mul_files_per_worker files.length n hn) (Nat.le_refl _))

theorem staticSlice_eq_nil {files : List String} {n : Nat} (i : Nat)
    (h : files.length ≤ i * files_per_worker files.length n) :
    staticSlice files n i = [] := by
  unfold staticSlice
  rw [List.drop_eq_nil_of_le h]
  exact List.take_nil

theorem flatten_map_flatMap {α β : Type} (g : α → List β) (L : List (List α)) :
    (L.map (fun l => l.flatMap g)).flatten = L.flatten.flatMap g := by
  induction L with
  | nil => rfl
  | cons l L ih => rw [List.map_cons, List.flatten_cons, List.flatten_cons,
      List.flatMap_append, ih]

theorem flatten_modify_append_perm {α : Type} (f : α) :
    ∀ (w : Nat) (L : List (List α)), w < L.length →
    ((L.modify (fun l => l ++ [f]) w).flatten).Perm (L.flatten ++ [f])
  | _, [], hw => absurd hw (by simp)
  | 0, l :: L, _ => by
      rw [List.modify_zero_cons, List.flatten_cons, List.flatten_cons,
        List.append_assoc, List.append_assoc]
      exact List.Perm.append_left l List.perm_append_comm
  | (w + 1), l :: L, hw => by
      rw [List.modify_succ_cons, List.flatten_cons, List.flatten_cons,
        List.append_assoc]
      exact List.Perm.append_left l
        (flatten_modify_append_perm f w L (by simpa using hw))

/-- The structural invariant of the dynamic distribution: the worker lists
keep their arity, and the files popped so far together with the files still
queued are exactly the original file list. -/
def QInv (files : List String) (n : Nat) (st : QState) : Prop :=
  st.popped.length = n ∧ st.alive.length = n ∧
    (st.popped.flatten ++ st.queue).Perm files

theorem qinit_inv (files : List String) (n : Nat) :
    QInv files n (qinit files n) := by
  refine ⟨List.length_replicate n [], List.length_replicate n true, ?_⟩
  have : (List.replicate n ([] : List String)).flatten = [] := by
    induction n with
    | zero => rfl
    | succ n ih => rw [List.replicate_succ, List.flatten_cons, ih]; rfl
  simp [qinit, this]

theorem qstep_inv {files : List String} {n : Nat} {st : QState}
    (h : QInv files n st) (fs : FS) (key_words : List String) (w : Nat) :
    QInv files n (qstep fs key_words st w) := by
  obtain ⟨hp, ha, hperm⟩ := h
  by_cases halive : st.alive.getD w false = true
  · have hw : w < st.alive.length := by
      by_contra hge
      rw [List.getD_eq_default _ _ (Nat.le_of_not_lt hge)] at halive
      exact Bool.false_ne_true halive
    cases hq : st.queue with
    | nil =>
        rw [hq] at hperm
        rw [qstep, hq, if_pos halive]
        dsimp only
        exact ⟨hp, by rw [List.length_set]; exact ha, hperm⟩
    | cons f rest =>
        have hwp : w < st.popped.length := by rw [hp]; rw [ha] at hw; exact hw
        have hjoin :
            ((st.popped.modify (fun l => l ++ [f]) w).flatten ++ rest).Perm
              files := by
          rw [hq] at hperm
          refine List.Perm.trans ?_ hperm
          refine List.Perm.trans
            (List.Perm.append_right rest
              (flatten_modify_append_perm f w st.popped hwp)) ?_
          rw [List.append_assoc]
          exact List.Perm.refl _
        rw [qstep, hq, if_pos halive]
        dsimp only
        cases he : search_words fs f key_words with
        | ok ms =>
            dsimp only
            exact ⟨by rw [List.length_modify]; exact hp, ha, hjoin⟩
        | error msg =>
            dsimp only
            exact ⟨by rw [List.length_modify]; exact hp,
              by rw [List.length_set]; exact ha, hjoin⟩
  · rw [qstep, if_neg halive]
    exact ⟨hp, ha, hperm⟩

theorem qrun_inv {files : List String} {n : Nat} (fs : FS)
    (key_words : List String) (sched : List Nat) {st : QState}
    (h : QInv files n st) :
    QInv files n (qrun fs key_words sched st) := by
  induction sched generalizing st with
  | nil => exact h
  | cons w ws ih => exact ih (qstep_inv h fs key_words w)

/-- Under `noFault`, a dynamic worker only ever terminates because the queue
was empty when it polled (there is no fault to kill it), and the queue never
refills; so a dead worker witnesses an empty queue. -/
theorem qstep_alive {fs : FS} {key_words files : List String} {n : Nat}
    {st : QState} (hok : noFault fs key_words files) (hinv : QInv files n st)
    (hA : false ∈ st.alive → st.queue = []) (w : Nat) :
    false ∈ (qstep fs key_words st w).alive →
      (qstep fs key_words st w).queue = [] := by
  by_cases halive : st.alive.getD w false = true
  · cases hq : st.queue with
    | nil =>
        rw [qstep, hq, if_pos halive]
        dsimp only
        intro _
        rfl
    | cons f rest =>
        have hfq : f ∈ files := by
          refine hinv.2.2.mem_iff.mp ?_
          rw [hq]
          exact List.mem_append.mpr (Or.inr (List.mem_cons_self f rest))
        have hfok := hok f hfq
        rw [qstep, hq, if_pos halive]
        dsimp only
        cases he : search_words fs f key_words with
        | ok ms =>
            dsimp only
            intro hfalse
            exact absurd hq (by rw [hA hfalse]; exact fun h => List.noConfusion h)
        | error msg =>
            rw [he] at hfok
            exact absurd hfok (by simp [Except.isOk, Except.toBool])
  · rw [qstep, if_neg halive]
    exact hA

theorem qrun_alive {fs : FS} {key_words files : List String} {n : Nat}
    (sched : List Nat) {st : QState} (hok : noFault fs key_words files)
    (hinv : QInv files n st) (hA : false ∈ st.alive → st.queue = []) :
    false ∈ (qrun fs key_words sched st).alive →
      (qrun fs key_words sched st).queue = [] := by
  induction sched generalizing st with
  | nil => exact hA
  | cons w ws ih =>
      exact ih (qstep_inv hinv fs key_words w) (qstep_alive hok hinv hA w)

/-- When no listed file faults and the dynamic run has completed (every
worker terminated), the queue has been fully drained and the files popped
across all workers are exactly the original file list (each exactly once,
as a multiset). -/
theorem qrun_complete {fs : FS} {key_words files : List String} {n : Nat}
    (sched : List Nat) (hok : noFault fs key_words files) (hn : 1 ≤ n)
    (hdone : ∀ b ∈ (qrun fs key_words sched (qinit files n)).alive, b = false) :
    (qrun fs key_words sched (qinit files n)).queue = [] ∧
      (qrun fs key_words sched (qinit files n)).popped.flatten.Perm files := by
  have hinv := qrun_inv fs key_words sched (qinit_inv files n)
  have hlen : 0 < (qrun fs key_words sched (qinit files n)).alive.length := by
    rw [hinv.2.1]; exact hn
  obtain ⟨b, hb⟩ := List.exists_mem_of_length_pos hlen
  have hfalse : false ∈ (qrun fs key_words sched (qinit files n)).alive := by
    rw [← hdone b hb]; exact hb
  have hq := qrun_alive sched hok (qinit_inv files n)
    (by intro h; simp [qinit] at h) hfalse
  refine ⟨hq, ?_⟩
  have := hinv.2.2
  rw [hq, List.append_nil] at this
  exact this

theorem mem_staticSlice_mem_files {files : List String} {n i : Nat}
    {f : String} (h : f ∈ staticSlice files n i) : f ∈ files :=
  List.Sublist.mem h (staticSlice_sublist files n i)

/-- Under `noFault`, the static multi-thread strategy produces (up to the
arbitrary interleaving, i.e. exactly as a canonical concatenation) the same
raw matches as the single-threaded worker over the whole file list. -/
theorem multiThread_raw_eq {fs : FS} {files key_words : List String}
    {n : Nat} (hok : noFault fs key_words files) (hn : 1 ≤ n) :
    MultiThreadSearcher.raw fs files key_words n =
      SearcherBase.worker fs files key_words := by
  unfold MultiThreadSearcher.raw
  rw [List.flatMap_congr (fun i _ => worker_eq_flatMap
    (fun f hf => hok f (mem_staticSlice_mem_files hf)))]
  rw [← List.flatMap_assoc, flatMap_staticSlice_eq files n hn,
    worker_eq_flatMap hok]

/-- Under `noFault` and a completed run, the dynamic-queue strategy's raw
matches are a permutation of the single-threaded worker's. -/
theorem multiProcess2_raw_perm {fs : FS} {files key_words : List String}
    {n : Nat} (sched : List Nat) (hok : noFault fs key_words files)
    (hn : 1 ≤ n)
    (hdone : ∀ b ∈ (qrun fs key_words sched (qinit files n)).alive, b = false) :
    (MultiProcessSearcher2.raw fs files key_words n sched).Perm
      (SearcherBase.worker fs files key_words) := by
  unfold MultiProcessSearcher2.raw
  rw [flatten_map_flatMap, worker_eq_flatMap hok]
  exact List.Perm.flatMap_right _ (qrun_complete sched hok hn hdone).2

theorem mem_lineMatches {m : SearchMatch} {f : String}
    {key_words : List String} {i : Nat} {line : String}
    (h : m ∈ lineMatches f key_words i line) :
    m.1 ∈ key_words ∧ m.2.1 = f ∧ m.2.2 = i ∧
      pyIn m.1 (pyLower line) = true := by
  obtain ⟨w, hw, hsome⟩ := List.mem_filterMap.mp h
  by_cases hpy : pyIn w (pyLower line) = true
  · rw [if_pos hpy] at hsome
    cases hsome
    exact ⟨hw, rfl, rfl, hpy⟩
  · rw [if_neg hpy] at hsome
    exact absurd hsome (Option.noConfusion)

theorem mem_lineMatches_intro {w f line : String} {key_words : List String}
    {i : Nat} (hw : w ∈ key_words) (hpy : pyIn w (pyLower line) = true) :
    (w, f, i) ∈ lineMatches f key_words i line :=
  List.mem_filterMap.mpr ⟨w, hw, by rw [if_pos hpy]⟩

theorem mem_okMatches_search_words {fs : FS} {f : String}
    {key_words : List String} {m : SearchMatch}
    (hm : m ∈ okMatches (search_words fs f key_words)) :
    m.1 ∈ key_words ∧ m.2.1 = f ∧
      ∃ ls, FS.read fs f = some (.lines ls) ∧
        ∃ line, ls[m.2.2]? = some line ∧ pyIn m.1 (pyLower line) = true := by
  unfold search_words at hm
  cases hr : FS.read fs f with
  | none => rw [hr] at hm; exact absurd hm (List.not_mem_nil m)
  | some d =>
      cases d with
      | ioError msg => rw [hr] at hm; exact absurd hm (List.not_mem_nil m)
      | lines ls =>
          rw [hr] at hm
          obtain ⟨p, hp, hmp⟩ := List.mem_flatMap.mp hm
          obtain ⟨h1, h2, h3, h4⟩ := mem_lineMatches hmp
          refine ⟨h1, h2, ls, rfl, p.2, ?_, h4⟩
          rw [h3]
          exact List.mem_enum_iff_getElem?.mp hp

theorem nodup_lineMatches {key_words : List String} (f : String) (i : Nat)
    (line : String) (hk : key_words.Nodup) :
    (lineMatches f key_words i line).Nodup := by
  refine List.Nodup.filterMap ?_ hk
  intro a a' b hb hb'
  by_cases ha : pyIn a (pyLower line) = true
  · by_cases ha' : pyIn a' (pyLower line) = true
    · rw [if_pos ha] at hb
      rw [if_pos ha'] at hb'
      cases hb
      cases hb'
      rfl
    · rw [if_neg ha'] at hb'
      exact absurd hb' (Option.noConfusion)
  · rw [if_neg ha] at hb
    exact absurd hb (Option.noConfusion)

theorem nodup_okMatches_search_words (fs : FS) (f : String)
    {key_words : List String} (hk : key_words.Nodup) :
    (okMatches (search_words fs f key_words)).Nodup := by
  unfold search_words
  cases FS.read fs f with
  | none => exact List.nodup_nil
  | some d =>
      cases d with
      | ioError msg => exact List.nodup_nil
      | lines ls =>
          refine List.nodup_flatMap.mpr ⟨fun p _ => nodup_lineMatches f p.1 p.2 hk, ?_⟩
          have henum : List.Pairwise (fun p q : Nat × String => p.1 ≠ q.1) ls.enum := by
            rw [← List.pairwise_map (f := Prod.fst) (R := Ne), List.enum_map_fst]
            exact List.nodup_range ls.length
          refine henum.imp ?_
          intro p q hpq m hmp hmq
          have h1 := (mem_lineMatches hmp).2.2.1
          have h2 := (mem_lineMatches hmq).2.2.1
          exact hpq (h1 ▸ h2)

theorem nodup_files_flatMap (fs : FS) {files key_words : List String}
    (hf : files.Nodup) (hk : key_words.Nodup) :
    (files.flatMap (fun f => okMatches (search_words fs f key_words))).Nodup := by
  refine List.nodup_flatMap.mpr
    ⟨fun f _ => nodup_okMatches_search_words fs f hk, ?_⟩
  refine hf.imp ?_
  intro f g hfg m hmf hmg
  have h1 := (mem_okMatches_search_words hmf).2.1
  have h2 := (mem_okMatches_search_words hmg).2.1
  exact hfg (h1 ▸ h2)

theorem nodup_singleThread_search (fs : FS) {files key_words : List String}
    (hf : files.Nodup) (hk : key_words.Nodup) :
    (SingleThreadSearcher.search fs files key_words).Nodup := by
  have hsub := worker_sublist fs key_words files
  have hw := hsub.nodup (nodup_files_flatMap fs hf hk)
  unfold SingleThreadSearcher.search SearcherBase.search
  exact ((pySort_perm _).nodup_iff).mpr (by rw [List.nil_append]; exact hw)

theorem count_le_one_of_nodup (m : SearchMatch) {l : List SearchMatch}
    (h : l.Nodup) : l.count m ≤ 1 := by
  induction l with
  | nil => exact Nat.zero_le 1
  | cons a l ih =>
      obtain ⟨ha, hl⟩ := List.nodup_cons.mp h
      rw [List.count_cons]
      by_cases he : a = m
      · subst he
        rw [List.count_eq_zero.mpr ha, if_pos (beq_self_eq_true a)]
      · rw [if_neg (by simp [he])]
        exact Nat.le_trans (Nat.le_of_eq (Nat.add_zero _)) (ih hl)

theorem count_eq_one_of_nodup_mem {m : SearchMatch} {l : List SearchMatch}
    (h : l.Nodup) (hm : m ∈ l) : l.count m = 1 := by
  induction l with
  | nil => exact absurd hm (List.not_mem_nil m)
  | cons a l ih =>
      obtain ⟨ha, hl⟩ := List.nodup_cons.mp h
      rw [List.count_cons]
      rcases List.mem_cons.mp hm with he | hmem
      · subst he
        rw [List.count_eq_zero.mpr ha, if_pos (beq_self_eq_true m)]
      · have hne : a ≠ m := fun he => ha (he ▸ hmem)
        rw [if_neg (by simp [hne]), Nat.add_zero]
        exact ih hl hmem

/-! Concrete fixtures used by witnesses and counterexamples. -/

/-- The spec's scenario file: two lines, keywords searched are lowercase. -/
def demoFS : FS := [("a.txt", .lines ["The Go team builds tools.", "Rust is fast."])]

/-- A file whose single line contains `"going"` (lowercase). -/
def oneLineFS : FS := [("a.txt", .lines ["going home"])]

/-- A file whose single line contains `"Going"` (capitalized). -/
def upperLineFS : FS := [("a.txt", .lines ["Going home"])]

/-- A readable file plus a file whose `open` raises `PermissionError`. -/
def faultFS : FS := [("a.txt", .lines ["go"]), ("b.txt", .ioError "PermissionError")]

/-! The claims. -/

/-- C1 (amended): for a fixed `(files, key_words)` pair such that no listed
file raises an exception other than `FileNotFoundError`, and any
`n_workers ≥ 1`, the four strategies produce identical final sorted result
lists: whatever interleaving (permutation) of the per-worker raw matches the
shared list / queues deliver, and for `MultiProcessSearcher2` any pop
schedule under which the run completed (all workers terminated), sorting
yields exactly the `SingleThreadSearcher` result. -/
theorem cross_strategy_equivalence (fs : FS) (files key_words : List String)
    (n : Nat) (sched : List Nat) (r_mt r_mp r_mp2 : List SearchMatch)
    (hn : 1 ≤ n) (hok : noFault fs key_words files)
    (h_mt : r_mt.Perm (MultiThreadSearcher.raw fs files key_words n))
    (h_mp : r_mp.Perm (MultiProcessSearcher.raw fs files key_words n))
    (hdone : ∀ b ∈ (qrun fs key_words sched (qinit files n)).alive, b = false)
    (h_mp2 : r_mp2.Perm (MultiProcessSearcher2.raw fs files key_words n sched)) :
    SearcherBase.search [] r_mt = SingleThreadSearcher.search fs files key_words ∧
    SearcherBase.search [] r_mp = SingleThreadSearcher.search fs files key_words ∧
    SearcherBase.search [] r_mp2 = SingleThreadSearcher.search fs files key_words := by
  have hw1 : r_mt.Perm (SearcherBase.worker fs files key_words) := by
    rw [← multiThread_raw_eq hok hn]; exact h_mt
  have hw2 : r_mp.Perm (SearcherBase.worker fs files key_words) := by
    rw [← multiThread_raw_eq hok hn]; exact h_mp
  have hw3 : r_mp2.Perm (SearcherBase.worker fs files key_words) :=
    h_mp2.trans (multiProcess2_raw_perm sched hok hn hdone)
  unfold SingleThreadSearcher.search SearcherBase.search
  exact ⟨pySort_congr ((List.Perm.refl _).append hw1),
    pySort_congr ((List.Perm.refl _).append hw2),
    pySort_congr ((List.Perm.refl _).append hw3)⟩

/-- Witness for C1 at a concrete input: one file, two keywords, one worker,
a completing schedule. -/
theorem cross_strategy_equivalence_witness :
    (1 ≤ 1 ∧ noFault demoFS ["go", "fast"] ["a.txt"]) ∧
    (SearcherBase.search [] (MultiThreadSearcher.raw demoFS ["a.txt"] ["go", "fast"] 1) =
        SingleThreadSearcher.search demoFS ["a.txt"] ["go", "fast"] ∧
      SearcherBase.search [] (MultiProcessSearcher.raw demoFS ["a.txt"] ["go", "fast"] 1) =
        SingleThreadSearcher.search demoFS ["a.txt"] ["go", "fast"] ∧
      SearcherBase.search [] (MultiProcessSearcher2.raw demoFS ["a.txt"] ["go", "fast"] 1 [0, 0]) =
        SingleThreadSearcher.search demoFS ["a.txt"] ["go", "fast"]) :=
  ⟨⟨Nat.le_refl 1, by decide⟩,
    cross_strategy_equivalence demoFS ["a.txt"] ["go", "fast"] 1 [0, 0] _ _ _
      (Nat.le_refl 1) (by decide) (List.Perm.refl _) (List.Perm.refl _)
      (by decide) (List.Perm.refl _)⟩

/-- Counterexample to C1 as stated: with a file raising `PermissionError`
listed first, the single-threaded worker dies before reaching `a.txt` and
returns no matches, while with `n_workers = 2` the static partition puts
`a.txt` in a different worker, which still searches it — the two final
sorted result lists differ. -/
theorem cross_strategy_equivalence_cex :
    SingleThreadSearcher.search faultFS ["b.txt", "a.txt"] ["go"] = [] ∧
    SearcherBase.search [] (MultiThreadSearcher.raw faultFS ["b.txt", "a.txt"] ["go"] 2) =
      [("go", "a.txt", 0)] := by decide

/-- C2 (amended): `search()` accumulates: a second call on the same
instance re-runs the workers and appends the fresh raw matches to the
already-sorted `self.results` before re-sorting, so it returns the first
result list only when there are no matches at all. -/
theorem repeated_search_eq_iff (raw : List SearchMatch) :
    SearcherBase.search (SearcherBase.search [] raw) raw =
      SearcherBase.search [] raw ↔ raw = [] := by
  constructor
  · intro h
    have h1 : (SearcherBase.search (SearcherBase.search [] raw) raw).length =
        (SearcherBase.search [] raw).length + raw.length := by
      unfold SearcherBase.search
      rw [(pySort_perm _).length_eq, List.length_append]
    have h2 : (SearcherBase.search [] raw).length = raw.length := by
      unfold SearcherBase.search
      rw [(pySort_perm _).length_eq, List.nil_append]
    rw [h, h2] at h1
    exact List.eq_nil_of_length_eq_zero (by omega)
  · rintro rfl
    rfl

/-- Counterexample to C2 as stated: on a one-match input, the first
`search()` returns one tuple while a second `search()` on the same instance
returns it twice — the call is not idempotent. -/
theorem repeated_search_cex :
    SingleThreadSearcher.search oneLineFS ["a.txt"] ["go"] =
      [("go", "a.txt", 0)] ∧
    SearcherBase.search (SingleThreadSearcher.search oneLineFS ["a.txt"] ["go"])
        (SearcherBase.worker oneLineFS ["a.txt"] ["go"]) =
      [("go", "a.txt", 0), ("go", "a.txt", 0)] := by decide

/-- C3: static partitioning is complete and disjoint: for `n_workers ≥ 1`
the contiguous slices `files[i*ceil(F/N) : (i+1)*ceil(F/N)]` concatenate,
in worker order, to exactly the original file list (so each file goes to
exactly one worker), and every worker whose start index is past the end
receives an empty slice. -/
theorem static_partition (files : List String) (n : Nat) (hn : 1 ≤ n) :
    (List.range n).flatMap (staticSlice files n) = files ∧
    ∀ i, files.length ≤ i * files_per_worker files.length n →
      staticSlice files n i = [] :=
  ⟨flatMap_staticSlice_eq files n hn, fun i h => staticSlice_eq_nil i h⟩

/-- Witness for C3: three files, two workers (and worker 5 gets nothing). -/
theorem static_partition_witness :
    1 ≤ 2 ∧
    ((List.range 2).flatMap (staticSlice ["a", "b", "c"] 2) = ["a", "b", "c"] ∧
      ∀ i, (["a", "b", "c"] : List String).length ≤
          i * files_per_worker (["a", "b", "c"] : List String).length 2 →
        staticSlice ["a", "b", "c"] 2 i = []) :=
  ⟨by decide, static_partition ["a", "b", "c"] 2 (by decide)⟩

/-- C4 (amended): matching lowercases the line but not the keyword: the
test for keyword `w` against line `line` is substring containment of `w` in
the lowercased line.  Hence the lowercase keyword `"go"` matches a line
containing `"Going"`, while the capitalized keyword `"Go"` matches nothing,
not even a line containing `"going"`. -/
theorem keyword_matching_lowercases_line (w line f : String) :
    search_words [(f, FileData.lines [line])] f [w] =
      .ok (if pyIn w (pyLower line) then [(w, f, 0)] else []) ∧
    search_words upperLineFS "a.txt" ["go"] = .ok [("go", "a.txt", 0)] ∧
    search_words oneLineFS "a.txt" ["Go"] = .ok [] := by
  refine ⟨?_, by decide, by decide⟩
  unfold search_words FS.read
  rw [List.find?_cons_of_pos _ (by simp)]
  unfold lineMatches
  by_cases hpy : pyIn w (pyLower line) = true <;>
    simp [hpy, List.enum, List.filterMap]

/-- Counterexample to C4 as stated: the keyword `"Go"` does not match a line
containing `"going"` — only the line is lowercased, so the capitalized
keyword fails the substring test (while `"go"` succeeds). -/
theorem keyword_case_cex :
    search_words oneLineFS "a.txt" ["Go"] = .ok [] ∧
    search_words oneLineFS "a.txt" ["go"] = .ok [("go", "a.txt", 0)] := by decide

/-- C5: missing-file tolerance: a listed file absent from the file system
yields `FileNotFoundError`, which `search_words` catches: it contributes no
matches, emits the "not found" log line, and the enclosing worker and the
whole search proceed exactly as if the file were not listed. -/
theorem missing_file_tolerance (fs : FS) (f : String)
    (key_words pre post : List String) (h : FS.read fs f = none) :
    search_words fs f key_words = .ok [] ∧
    search_words_logs fs f = ["File " ++ f ++ " not found"] ∧
    SearcherBase.worker fs (pre ++ f :: post) key_words =
      SearcherBase.worker fs (pre ++ post) key_words ∧
    SingleThreadSearcher.search fs (pre ++ f :: post) key_words =
      SingleThreadSearcher.search fs (pre ++ post) key_words := by
  have h1 : search_words fs f key_words = .ok [] := by
    unfold search_words; rw [h]
  have h3 : SearcherBase.worker fs (pre ++ f :: post) key_words =
      SearcherBase.worker fs (pre ++ post) key_words := by
    induction pre with
    | nil =>
        simp only [List.nil_append]
        conv_lhs => rw [SearcherBase.worker, h1]
        rfl
    | cons p ps ih =>
        simp only [List.cons_append]
        rw [SearcherBase.worker, SearcherBase.worker]
        cases hp : search_words fs p key_words with
        | ok ms => rw [ih]
        | error msg => rfl
  refine ⟨h1, by unfold search_words_logs; rw [h], h3, ?_⟩
  unfold SingleThreadSearcher.search SearcherBase.search
  rw [h3]

/-- Witness for C5: `missing.txt` is not in the file system; the search over
`["a.txt", "missing.txt"]` equals the search over `["a.txt"]`. -/
theorem missing_file_tolerance_witness :
    FS.read oneLineFS "missing.txt" = none ∧
    (search_words oneLineFS "missing.txt" ["go"] = .ok [] ∧
      search_words_logs oneLineFS "missing.txt" =
        ["File " ++ "missing.txt" ++ " not found"] ∧
      SearcherBase.worker oneLineFS (["a.txt"] ++ "missing.txt" :: []) ["go"] =
        SearcherBase.worker oneLineFS (["a.txt"] ++ []) ["go"] ∧
      SingleThreadSearcher.search oneLineFS (["a.txt"] ++ "missing.txt" :: []) ["go"] =
        SingleThreadSearcher.search oneLineFS (["a.txt"] ++ []) ["go"]) :=
  ⟨by decide, missing_file_tolerance oneLineFS "missing.txt" ["go"] ["a.txt"] []
    (by decide)⟩

/-- C6: after `search()` returns, `self.results` is sorted ascending in the
lexicographic `(keyword, file_name, line_number)` order (`matchLe` is
literally that order), and is a permutation of the accumulated results plus
the raw matches the workers produced — the single final sort at line 83 is
the only reordering, performed once after `start_workers` has joined all
producers. -/
theorem results_sorted_after_search (results raw : List SearchMatch) :
    List.Sorted matchLe (SearcherBase.search results raw) ∧
    (SearcherBase.search results raw).Perm (results ++ raw) :=
  ⟨pySort_sorted _, pySort_perm _⟩

/-- C7 (amended): `n_workers ≤ 0` is not guarded anywhere:
`SingleThreadSearcher` ignores `n_workers` and proceeds normally for any
value; `MultiThreadSearcher.search(0)` raises an unhandled
`ZeroDivisionError` from the `files_per_worker` computation; and for
`n_workers < 0`, `range(n_workers)` is empty, so no worker is spawned and
the search silently returns an empty result list. -/
theorem n_workers_nonpositive_behavior (fs : FS) (files key_words : List String)
    (n : Int) (hn : n ≤ 0) :
    SingleThreadSearcher.searchZ fs files key_words n =
      .ok (SearcherBase.search [] (SearcherBase.worker fs files key_words)) ∧
    MultiThreadSearcher.searchZ fs files key_words 0 =
      .error "ZeroDivisionError" ∧
    (n < 0 → MultiThreadSearcher.searchZ fs files key_words n = .ok []) := by
  refine ⟨rfl, ?_, ?_⟩
  · unfold MultiThreadSearcher.searchZ MultiThreadSearcher.start_workersZ
    rw [if_pos rfl]
    rfl
  · intro hneg
    unfold MultiThreadSearcher.searchZ MultiThreadSearcher.start_workersZ
    rw [if_neg (by omega : ¬ n = 0)]
    unfold pyRange
    rw [Int.toNat_of_nonpos hn]
    rfl

/-- Witness for C7's amended statement at `n_workers = -1`. -/
theorem n_workers_nonpositive_witness :
    ((-1 : Int) ≤ 0) ∧
    (SingleThreadSearcher.searchZ oneLineFS ["a.txt"] ["go"] (-1) =
        .ok (SearcherBase.search []
          (SearcherBase.worker oneLineFS ["a.txt"] ["go"])) ∧
      MultiThreadSearcher.searchZ oneLineFS ["a.txt"] ["go"] 0 =
        .error "ZeroDivisionError" ∧
      ((-1 : Int) < 0 →
        MultiThreadSearcher.searchZ oneLineFS ["a.txt"] ["go"] (-1) = .ok [])) :=
  ⟨by decide,
    n_workers_nonpositive_behavior oneLineFS ["a.txt"] ["go"] (-1) (by decide)⟩

/-- Counterexample to C7 as stated: `search(-1)` on a `SingleThreadSearcher`
is not rejected in any way — it runs the whole search and returns its
normal, nonempty result. -/
theorem n_workers_rejection_cex :
    ((-1 : Int) ≤ 0) ∧
    SingleThreadSearcher.searchZ oneLineFS ["a.txt"] ["go"] (-1) =
      .ok [("go", "a.txt", 0)] := by decide

/-- C8 (amended): in `MultiProcessSearcher2` all files are queued before the
workers start, pops are atomic, and unconditionally no file is ever popped
twice (pops plus the remaining queue are exactly the original file list);
when additionally no listed file raises a non-`FileNotFoundError` exception
and the run completes (all `n_workers ≥ 1` workers terminated), the queue
has been drained and every file was popped exactly once across the
workers.  (A worker killed by a faulting file stops popping, which can
leave files unclaimed — see the counterexample.) -/
theorem dynamic_queue_completeness (fs : FS) (files key_words : List String)
    (n : Nat) (sched : List Nat) (hn : 1 ≤ n) :
    ((qrun fs key_words sched (qinit files n)).popped.flatten ++
      (qrun fs key_words sched (qinit files n)).queue).Perm files ∧
    (noFault fs key_words files →
      (∀ b ∈ (qrun fs key_words sched (qinit files n)).alive, b = false) →
      (qrun fs key_words sched (qinit files n)).queue = [] ∧
        (qrun fs key_words sched (qinit files n)).popped.flatten.Perm files) :=
  ⟨(qrun_inv fs key_words sched (qinit_inv files n)).2.2,
    fun hok hdone => qrun_complete sched hok hn hdone⟩

/-- Witness for C8's amended statement: one worker, one file, a schedule
that pops the file and then observes the empty queue. -/
theorem dynamic_queue_completeness_witness :
    1 ≤ 1 ∧
    (((qrun oneLineFS ["go"] [0, 0] (qinit ["a.txt"] 1)).popped.flatten ++
        (qrun oneLineFS ["go"] [0, 0] (qinit ["a.txt"] 1)).queue).Perm ["a.txt"] ∧
      (noFault oneLineFS ["go"] ["a.txt"] →
        (∀ b ∈ (qrun oneLineFS ["go"] [0, 0] (qinit ["a.txt"] 1)).alive,
          b = false) →
        (qrun oneLineFS ["go"] [0, 0] (qinit ["a.txt"] 1)).queue = [] ∧
          (qrun oneLineFS ["go"] [0, 0]
            (qinit ["a.txt"] 1)).popped.flatten.Perm ["a.txt"])) :=
  ⟨Nat.le_refl 1,
    dynamic_queue_completeness oneLineFS ["a.txt"] ["go"] 1 [0, 0] (Nat.le_refl 1)⟩

/-- Counterexample to C8 as stated: with `n_workers = 1` and `b.txt` (a
`PermissionError` file) queued first, the only worker pops `b.txt`, faults,
and terminates; the run has completed (every worker terminated) yet
`a.txt` was never popped — it is still sitting in the queue. -/
theorem dynamic_queue_completeness_cex :
    (∀ b ∈ (qrun faultFS ["go"] [0, 0] (qinit ["b.txt", "a.txt"] 1)).alive,
      b = false) ∧
    "a.txt" ∉ (qrun faultFS ["go"] [0, 0]
      (qinit ["b.txt", "a.txt"] 1)).popped.flatten ∧
    (qrun faultFS ["go"] [0, 0] (qinit ["b.txt", "a.txt"] 1)).queue =
      ["a.txt"] := by decide

/-- C9: only `FileNotFoundError` is handled per-file: a file entry raising
any other exception makes `search_words` propagate it, and the worker's
generic handler stops that worker, so the files after it in the worker's
list are never searched — whereas a missing file (C5) leaves the rest of
the worker's list unaffected. -/
theorem nonFNF_exception_stops_worker (fs : FS) (f msg : String)
    (key_words pre post : List String)
    (h : FS.read fs f = some (.ioError msg)) :
    search_words fs f key_words = .error msg ∧
    SearcherBase.worker fs (pre ++ f :: post) key_words =
      SearcherBase.worker fs pre key_words := by
  have h1 : search_words fs f key_words = .error msg := by
    unfold search_words; rw [h]
  refine ⟨h1, ?_⟩
  induction pre with
  | nil =>
      simp only [List.nil_append]
      conv_lhs => rw [SearcherBase.worker, h1]
      rfl
  | cons p ps ih =>
      simp only [List.cons_append]
      conv_lhs => rw [SearcherBase.worker]
      conv_rhs => rw [SearcherBase.worker]
      cases hp : search_words fs p key_words with
      | ok ms => rw [ih]
      | error msg2 => rfl

/-- Witness for C9: `b.txt` raises `PermissionError`; the worker searches
`a.txt` (before it), then stops, never reaching the trailing `a.txt`. -/
theorem nonFNF_exception_stops_worker_witness :
    FS.read faultFS "b.txt" = some (.ioError "PermissionError") ∧
    (search_words faultFS "b.txt" ["go"] = .error "PermissionError" ∧
      SearcherBase.worker faultFS (["a.txt"] ++ "b.txt" :: ["a.txt"]) ["go"] =
        SearcherBase.worker faultFS ["a.txt"] ["go"]) :=
  ⟨by decide, nonFNF_exception_stops_worker faultFS "b.txt" "PermissionError"
    ["go"] ["a.txt"] ["a.txt"] (by decide)⟩

/-- C10: soundness and multiplicity of the result list: with distinct file
names and distinct keywords, every tuple `(word, file_name, i)` in the
final result has `word` a listed keyword, `file_name` a listed file whose
file-system entry is readable, and `word` a substring of the lowercased
`i`-th (0-indexed) line of that file; no tuple occurs twice (one match per
keyword/line pair, however often the keyword occurs inside the line); and
when no listed file faults, each matching keyword/line pair yields its
tuple exactly once. -/
theorem result_soundness (fs : FS) (files key_words : List String)
    (hf : files.Nodup) (hk : key_words.Nodup) :
    (∀ m ∈ SingleThreadSearcher.search fs files key_words,
      m.1 ∈ key_words ∧ m.2.1 ∈ files ∧
        ∃ ls, FS.read fs m.2.1 = some (.lines ls) ∧
          ∃ line, ls[m.2.2]? = some line ∧ pyIn m.1 (pyLower line) = true) ∧
    (∀ m, (SingleThreadSearcher.search fs files key_words).count m ≤ 1) ∧
    (noFault fs key_words files →
      ∀ w f i ls line, w ∈ key_words → f ∈ files →
        FS.read fs f = some (.lines ls) → ls[i]? = some line →
        pyIn w (pyLower line) = true →
        (SingleThreadSearcher.search fs files key_words).count (w, f, i) = 1) := by
  refine ⟨?_, ?_, ?_⟩
  · intro m hm
    have hm1 : m ∈ SearcherBase.worker fs files key_words := by
      have := (pySort_perm ([] ++ SearcherBase.worker fs files key_words)).mem_iff.mp hm
      rwa [List.nil_append] at this
    have hm2 := List.Sublist.mem hm1 (worker_sublist fs key_words files)
    obtain ⟨f, hfmem, hmok⟩ := List.mem_flatMap.mp hm2
    obtain ⟨h1, h2, ls, hr, line, hline, hpy⟩ := mem_okMatches_search_words hmok
    exact ⟨h1, h2 ▸ hfmem, ls, h2 ▸ hr, line, hline, hpy⟩
  · intro m
    exact count_le_one_of_nodup m (nodup_singleThread_search fs hf hk)
  · intro hok w f i ls line hw hf' hr hl hpy
    have hmem : (w, f, i) ∈ SearcherBase.worker fs files key_words := by
      rw [worker_eq_flatMap hok]
      refine List.mem_flatMap.mpr ⟨f, hf', ?_⟩
      unfold search_words
      rw [hr]
      exact List.mem_flatMap.mpr
        ⟨(i, line), List.mem_enum_iff_getElem?.mpr hl,
          mem_lineMatches_intro hw hpy⟩
    refine count_eq_one_of_nodup_mem (nodup_singleThread_search fs hf hk) ?_
    refine (pySort_perm _).mem_iff.mpr ?_
    rw [List.nil_append]
    exact hmem

/-- Witness for C10 on the spec's scenario input. -/
theorem result_soundness_witness :
    ((["a.txt"] : List String).Nodup ∧ (["go", "fast"] : List String).Nodup) ∧
    ((∀ m ∈ SingleThreadSearcher.search demoFS ["a.txt"] ["go", "fast"],
      m.1 ∈ ["go", "fast"] ∧ m.2.1 ∈ ["a.txt"] ∧
        ∃ ls, FS.read demoFS m.2.1 = some (.lines ls) ∧
          ∃ line, ls[m.2.2]? = some line ∧ pyIn m.1 (pyLower line) = true) ∧
    (∀ m, (SingleThreadSearcher.search demoFS ["a.txt"] ["go", "fast"]).count m ≤ 1) ∧
    (noFault demoFS ["go", "fast"] ["a.txt"] →
      ∀ w f i ls line, w ∈ ["go", "fast"] → f ∈ ["a.txt"] →
        FS.read demoFS f = some (.lines ls) → ls[i]? = some line →
        pyIn w (pyLower line) = true →
        (SingleThreadSearcher.search demoFS ["a.txt"] ["go", "fast"]).count
          (w, f, i) = 1)) :=
  ⟨⟨by decide, by decide⟩,
    result_soundness demoFS ["a.txt"] ["go", "fast"] (by decide) (by decide)⟩
